import Mathlib

/-!
Shallow embedding of the Repo-Surgeon core (tracing + detector registry +
orchestrator) and proofs about it.

Python dictionaries are modelled as insertion-ordered association lists over
string keys; `{**a, **b}` becomes `alMerge a b` (left-to-right insertion of
`b`'s entries into `a`, replacing in place on key collision, exactly the
CPython ordering semantics).  The injectable clock of `Tracer` is modelled as
a function `Nat → Nat` read at an incrementing tick counter; datetime values
and their ISO rendering are abstracted to these `Nat` readings.  Thread locks
vanish in the sequential embedding: the shared buffer/clock pair is a single
`TracerState` threaded through every operation of a tracer family, and a
child tracer is a handle carrying only its merged context.  Exceptions are
modelled with `Except`; a `with`/`finally` block becomes an explicit
combinator that runs the epilogue on both the `ok` and the `error` path.
-/

namespace RepoSurgeon

/-- A primitive Python value appearing in trace/context data or details. -/
inductive Prim where
  | pstr (s : String)
  | pnat (n : Nat)
  | pbool (b : Bool)
deriving Repr, DecidableEq

/-- A Python value appearing in trace/context data: a primitive or a
mapping (nesting truncated at one level, which covers every value the
core itself constructs). -/
inductive Val where
  | prim (p : Prim)
  | vdict (entries : List (String × Prim))
deriving Repr, DecidableEq

/-- Shorthand for a string value. -/
def Val.vstr (s : String) : Val := Val.prim (Prim.pstr s)

/-- Shorthand for an integer value. -/
def Val.vnat (n : Nat) : Val := Val.prim (Prim.pnat n)

/-- Shorthand for a boolean value. -/
def Val.vbool (b : Bool) : Val := Val.prim (Prim.pbool b)

/-- Insertion-ordered dictionary with string keys (Python `dict`). -/
abbrev Dict := List (String × Val)

/-- Keys of an association list, in order. -/
def alKeys {α : Type} (m : List (String × α)) : List String :=
  m.map Prod.fst

/-- Lookup of the first (for a dict: the only) binding of `k`. -/
def alGet {α : Type} : List (String × α) → String → Option α
  | [], _ => none
  | (k', v) :: rest, k => if k' = k then some v else alGet rest k

/-- Python `d[k] = v`: replace in place if present, append otherwise. -/
def alInsert {α : Type} : List (String × α) → String → α → List (String × α)
  | [], k, v => [(k, v)]
  | (k', v') :: rest, k, v =>
      if k' = k then (k, v) :: rest else (k', v') :: alInsert rest k v

/-- Python `{**a, **b}`: insert `b`'s entries into `a` left to right. -/
def alMerge {α : Type} (a b : List (String × α)) : List (String × α) :=
  b.foldl (fun acc kv => alInsert acc kv.1 kv.2) a

/-- Python `dict.pop k` payload: drop the first binding of `k`. -/
def alRemove {α : Type} : List (String × α) → String → List (String × α)
  | [], _ => []
  | (k', v') :: rest, k =>
      if k' = k then rest else (k', v') :: alRemove rest k

/-- The keys are pairwise distinct (every Python dict satisfies this). -/
def keysNodup {α : Type} (m : List (String × α)) : Prop :=
  (alKeys m).Nodup

instance {α : Type} (m : List (String × α)) : Decidable (keysNodup m) := by
  unfold keysNodup; infer_instance

/-! ### Tracing (`repo_surgeon/tracing.py`) -/

/-- A single event captured during execution (`TraceEvent`). -/
structure TraceEvent where
  timestamp : Nat
  event : String
  data : Dict
deriving Repr, DecidableEq

/-- `TraceEvent.to_dict`: base fields, then the data entries merged over
them (a data key named `timestamp` or `event` replaces the base field). -/
def TraceEvent.to_dict (e : TraceEvent) : Dict :=
  alMerge [("timestamp", Val.vstr (toString e.timestamp)),
           ("event", Val.vstr e.event)] e.data

/-- The state shared by one tracer family: the append-only event buffer and
the injectable clock, read at an incrementing tick counter. -/
structure TracerState where
  buffer : List TraceEvent := []
  clock : Nat → Nat := fun _ => 0
  ticks : Nat := 0

/-- A tracer handle: only its merged context is per-handle; buffer and clock
are shared through `TracerState` (`Tracer._events` / `_clock` / `_lock`). -/
structure Tracer where
  context : Dict := []

/-- `Tracer.emit`: payload is context merged with call-site data (call-site
wins), stamped with the current clock reading, appended to the buffer. -/
def Tracer.emit (t : Tracer) (event : String) (data : Dict)
    (s : TracerState) : TraceEvent × TracerState :=
  let payload := alMerge t.context data
  let ev : TraceEvent := ⟨s.clock s.ticks, event, payload⟩
  (ev, { s with buffer := s.buffer ++ [ev], ticks := s.ticks + 1 })

/-- `Tracer.events`: snapshot of the shared buffer. -/
def Tracer.events (s : TracerState) : List TraceEvent :=
  s.buffer

/-- `Tracer.child`: new handle with context = parent ∪ given (given wins). -/
def Tracer.child (t : Tracer) (context : Dict) : Tracer :=
  ⟨alMerge t.context context⟩

/-- `Tracer.span`: child tracer with `{span: name, **context}`, one
`span.start` before the body, one `span.end` in a `finally`, i.e. on the
`ok` and on the `error` path alike. -/
def Tracer.span {ε α : Type} (t : Tracer) (name : String) (context : Dict)
    (body : Tracer → TracerState → Except ε α × TracerState)
    (s : TracerState) : Except ε α × TracerState :=
  let tracer := t.child (("span", Val.vstr name) :: context)
  let s1 := (tracer.emit "span.start" [] s).2
  let (r, s2) := body tracer s1
  (r, (tracer.emit "span.end" [] s2).2)

/-! ### Detector contract (`repo_surgeon/detectors/base.py`) -/

/-- One finding emitted by a detector (`Issue`), with the dataclass
defaults of the source. -/
structure Issue where
  message : String
  path : String
  detector : String := ""
  severity : String := "warning"
  line : Option Nat := none
  column : Option Nat := none
  details : List (String × Prim) := []
deriving Repr, DecidableEq

/-- `Issue.to_dict`: the four base keys always, `line` / `column` when set,
`details` when non-empty. -/
def Issue.to_dict (i : Issue) : Dict :=
  (([("detector", Val.vstr i.detector),
     ("message", Val.vstr i.message),
     ("path", Val.vstr i.path),
     ("severity", Val.vstr i.severity)]
    ++ (match i.line with | some n => [("line", Val.vnat n)] | none => [])
    ++ (match i.column with | some n => [("column", Val.vnat n)] | none => []))
    ++ (if i.details = [] then [] else [("details", Val.vdict i.details)]))

/-- A value produced by `detect`: an `Issue`, or anything else (which the
pipeline must reject with a type-mismatch error). -/
inductive DetectOut where
  | issue (i : Issue)
  | other (description : String)
deriving Repr, DecidableEq

/-- A detector class: its declared attributes plus its `detect` analysis,
modelled as a function from the root path to the produced values. -/
structure Detector where
  name : String := ""
  description : String := ""
  default_severity : String := "warning"
  enable_by_default : Bool := true
  detect : String → List DetectOut

/-- Errors of the pipeline: `FileNotFoundError(root)` and
`TypeError` for a non-`Issue` value (spec kinds NotFound / TypeMismatch). -/
inductive PipelineError where
  | notFound (root : String)
  | typeMismatch (detectorName : String) (value : String)
deriving Repr, DecidableEq

/-- The normalisation `Detector.run` applies to one issue before yielding
it: fill `detector` and `severity` when they are the empty string. -/
def normalizeIssue (d : Detector) (i : Issue) : Issue :=
  { i with
    detector := if i.detector = "" then d.name else i.detector
    severity := if i.severity = "" then d.default_severity else i.severity }

/-- The loop body of `Detector.run`: validate each produced value, fill
blank fields, emit an `issue` event, collect the yielded issue. -/
def processItems (d : Detector) (tr : Tracer) :
    List DetectOut → List Issue → TracerState →
    Except PipelineError (List Issue) × TracerState
  | [], acc, s => (Except.ok acc, s)
  | DetectOut.other v :: _, _, s =>
      (Except.error (PipelineError.typeMismatch d.name v), s)
  | DetectOut.issue i :: rest, acc, s =>
      let i' := normalizeIssue d i
      let s' := (tr.emit "issue" i'.to_dict s).2
      processItems d tr rest (acc ++ [i']) s'

/-- `Detector.run` (drained to completion, as the orchestrator drains it):
root-existence check first, then a `"detector"` span around the wrapped
`detect` loop.  The filesystem is abstracted as an existence predicate. -/
def Detector.run (d : Detector) (fs : String → Bool) (root : String)
    (tracer : Tracer) (s : TracerState) :
    Except PipelineError (List Issue) × TracerState :=
  if fs root then
    tracer.span "detector" [("name", Val.vstr d.name)]
      (fun tr s1 => processItems d tr (d.detect root) [] s1) s
  else
    (Except.error (PipelineError.notFound root), s)

/-- The issues `Detector.run` yields when every produced value is an
`Issue` (normalised, in emission order). -/
def detectorIssues (d : Detector) (root : String) : List Issue :=
  (d.detect root).filterMap fun o =>
    match o with
    | DetectOut.issue i => some (normalizeIssue d i)
    | DetectOut.other _ => none

/-! ### Detector registry (`DetectorRegistry`) -/

/-- The registry table: an insertion-ordered map name → detector class. -/
abbrev DetectorRegistry := List (String × Detector)

/-- Registry errors, named by the spec's taxonomy kinds (`register` raises
`ValueError` for the first two, `unregister` raises `KeyError`). -/
inductive RegError where
  | validation (message : String)
  | conflict (name : String)
  | notFound (name : String)
deriving Repr, DecidableEq

/-- The name `register` resolves: `name or detector_cls.name` (both `None`
and the empty string fall back to the class attribute). -/
def resolveName (cls : Detector) (name : Option String) : String :=
  match name with
  | some n => if n = "" then cls.name else n
  | none => cls.name

/-- `DetectorRegistry.register`: resolve the name, reject empty names,
reject duplicates unless `overwrite`, otherwise insert/replace. -/
def DetectorRegistry.register (r : DetectorRegistry) (cls : Detector)
    (name : Option String := none) (overwrite : Bool := false) :
    Except RegError DetectorRegistry :=
  if resolveName cls name = "" then
    Except.error (RegError.validation "detector name cannot be empty")
  else if (alGet r (resolveName cls name)).isSome && !overwrite then
    Except.error (RegError.conflict (resolveName cls name))
  else
    Except.ok (alInsert r (resolveName cls name) cls)

/-- `DetectorRegistry.unregister`: `dict.pop`, `KeyError` when absent. -/
def DetectorRegistry.unregister (r : DetectorRegistry) (name : String) :
    Except RegError DetectorRegistry :=
  if (alGet r name).isSome then Except.ok (alRemove r name)
  else Except.error (RegError.notFound name)

/-- `DetectorRegistry.available`: the entries sorted by name (Python's
stable `sorted(items, key=first)`). -/
def DetectorRegistry.available (r : DetectorRegistry) :
    List (String × Detector) :=
  List.insertionSort (fun a b => a.1 ≤ b.1) r

/-- The tracer a freshly instantiated detector gets: the factory's product
for its registry name, or a fresh default tracer (empty context). -/
def tracerFor (tf : Option (String → Tracer)) (name : String) : Tracer :=
  match tf with
  | some f => f name
  | none => {}

/-- Loop of `instantiate_all` over `available()` with the two `continue`
filters of the source. -/
def instantiateLoop (includeNames excludeNames : List String)
    (tf : Option (String → Tracer)) :
    List (String × Detector) → List (Detector × Tracer)
  | [] => []
  | (name, cls) :: rest =>
      if includeNames ≠ [] ∧ name ∉ includeNames then instantiateLoop includeNames excludeNames tf rest
      else if name ∈ excludeNames then instantiateLoop includeNames excludeNames tf rest
      else (cls, tracerFor tf name) :: instantiateLoop includeNames excludeNames tf rest

/-- `DetectorRegistry.instantiate_all`. -/
def DetectorRegistry.instantiate_all (r : DetectorRegistry)
    (includeNames excludeNames : List String) (tf : Option (String → Tracer)) :
    List (Detector × Tracer) :=
  instantiateLoop includeNames excludeNames tf r.available

/-- One mutation of the registry, for reasoning about operation sequences.
A failing operation raises before mutating, so it leaves the table as is. -/
inductive RegOp where
  | reg (cls : Detector) (name : Option String) (overwrite : Bool)
  | unreg (name : String)

/-- Apply one operation; a raised error leaves the registry unchanged. -/
def applyOp (r : DetectorRegistry) : RegOp → DetectorRegistry
  | RegOp.reg cls name ow =>
      match r.register cls name ow with
      | Except.ok r' => r'
      | Except.error _ => r
  | RegOp.unreg n =>
      match r.unregister n with
      | Except.ok r' => r'
      | Except.error _ => r

/-- Apply a sequence of registry operations from left to right. -/
def applyOps (r : DetectorRegistry) (ops : List RegOp) : DetectorRegistry :=
  ops.foldl applyOp r

/-! ### Orchestrator (`repo_surgeon/cli.py`, `RepoSurgeon.run`) -/

/-- Drain every instantiated detector in order, appending its issues;
a failure propagates immediately and aborts the remaining detectors. -/
def drainAll (fs : String → Bool) (root : String) :
    List (Detector × Tracer) → List Issue → TracerState →
    Except PipelineError (List Issue) × TracerState
  | [], acc, s => (Except.ok acc, s)
  | (d, tr) :: rest, acc, s =>
      match d.run fs root tr s with
      | (Except.ok issues, s') => drainAll fs root rest (acc ++ issues) s'
      | (Except.error e, s') => (Except.error e, s')

/-- `RepoSurgeon.run`: instantiate the selected detectors (each wired to a
child tracer `{detector: name}`), open the `"scan"` span, drain the
detectors, emit `scan.complete` with the issue count on success. -/
def RepoSurgeon.run (reg : DetectorRegistry) (fs : String → Bool)
    (root : String) (includeNames excludeNames : List String) (t : Tracer)
    (s : TracerState) : Except PipelineError (List Issue) × TracerState :=
  let detectors := reg.instantiate_all includeNames excludeNames
    (some fun name => t.child [("detector", Val.vstr name)])
  t.span "scan" [("root", Val.vstr root)]
    (fun tr s1 =>
      match drainAll fs root detectors [] s1 with
      | (Except.ok issues, s2) =>
          (Except.ok issues,
           (tr.emit "scan.complete" [("issues", Val.vnat issues.length)] s2).2)
      | (Except.error e, s2) => (Except.error e, s2)) s


/-- Emission sequence: run a list of `emit` calls, each from an arbitrary
handle of one tracer family sharing the threaded state. -/
def runEmits : List (Tracer × String × Dict) → TracerState → TracerState
  | [], s => s
  | (t, e, d) :: rest, s => runEmits rest ((t.emit e d s).2)

instance : IsTotal (String × Detector) (fun a b => a.1 ≤ b.1) :=
  ⟨fun a b => le_total a.1 b.1⟩

instance : IsTrans (String × Detector) (fun a b => a.1 ≤ b.1) :=
  ⟨fun _ _ _ h h' => le_trans h h'⟩

instance : IsAntisymm (String × Detector) (fun a b => a.1 < b.1) :=
  ⟨fun _ _ h h' => absurd h' (lt_asymm h)⟩

/-- Extract-and-normalise one produced value. -/
def extractIssue (d : Detector) (o : DetectOut) : Option Issue :=
  match o with
  | DetectOut.issue i => some (normalizeIssue d i)
  | DetectOut.other _ => none

/-- The selection predicate of `instantiate_all`: kept iff in `include`
(when `include` is non-empty) and not in `exclude`. -/
def selectedName (includeNames excludeNames : List String) (n : String) : Prop :=
  (includeNames = [] ∨ n ∈ includeNames) ∧ n ∉ excludeNames

instance (includeNames excludeNames : List String) (n : String) :
    Decidable (selectedName includeNames excludeNames n) := by
  unfold selectedName; infer_instance

/-! ### Concrete fixtures used by the claim theorems -/

/-- A fresh tracer family state whose clock reads the tick counter. -/
def st0 : TracerState := { clock := fun i => i }

/-- The end-to-end example issue of the spec. -/
def demoIssue : Issue := { message := "problem", path := "file.py", severity := "info" }

/-- A detector yielding exactly `demoIssue`, its `detector` field blank. -/
def demoDetector : Detector :=
  { name := "demo", detect := fun _ => [DetectOut.issue demoIssue] }

/-- A registry holding only `demoDetector`. -/
def demoRegistry : DetectorRegistry := [("demo", demoDetector)]

/-- A body that fails after emitting one event (an exception escaping the
caller's block). -/
def bodyFail (tr : Tracer) (s : TracerState) :
    Except PipelineError Unit × TracerState :=
  (Except.error (PipelineError.notFound "x"), (tr.emit "boom" [] s).2)

def detA : Detector := { name := "a", detect := fun _ => [] }

def detB : Detector := { name := "b", detect := fun _ => [] }

def detC : Detector := { name := "c", detect := fun _ => [] }

/-- A detector class whose declared `name` attribute is empty. -/
def detNoName : Detector := { detect := fun _ => [] }

/-- The `{a, b, c}` registry of the spec's filter example. -/
def reg3 : DetectorRegistry := [("a", detA), ("b", detB), ("c", detC)]

/-- A detector with a non-default `default_severity` whose issue is
constructed without an explicit severity. -/
def sevDet : Detector :=
  { name := "sevdet", default_severity := "error",
    detect := fun _ => [DetectOut.issue { message := "m", path := "p" }] }

/-- A detector yielding one valid issue and then a non-`Issue` value. -/
def badDet : Detector :=
  { name := "bad",
    detect := fun _ =>
      [DetectOut.issue { message := "m", path := "p" }, DetectOut.other "42"] }

/-! ### Association-list lemmas -/

theorem alGet_eq_none {α : Type} :
    ∀ (m : List (String × α)) (k : String), k ∉ alKeys m → alGet m k = none := by
  intro m
  induction m with
  | nil => intro k _; rfl
  | cons kv rest ih =>
      intro k hk
      simp only [alKeys, List.map_cons, List.mem_cons] at hk
      push_neg at hk
      obtain ⟨h1, h2⟩ := hk
      obtain ⟨k', v⟩ := kv
      simp only [alGet]
      rw [if_neg (by simpa using Ne.symm h1)]
      exact ih k (by simpa [alKeys] using h2)

theorem alGet_alInsert {α : Type} :
    ∀ (m : List (String × α)) (k : String) (v : α) (q : String),
      alGet (alInsert m k v) q = if k = q then some v else alGet m q := by
  intro m
  induction m with
  | nil => intro k v q; simp [alInsert, alGet]
  | cons kv rest ih =>
      intro k v q
      obtain ⟨k', v'⟩ := kv
      by_cases hk : k' = k
      · subst hk
        simp only [alInsert, if_pos rfl, alGet]
        by_cases hq : k' = q
        · subst hq; simp
        · simp [hq]
      · simp only [alInsert, if_neg hk, alGet]
        by_cases hq : k' = q
        · subst hq
          have : ¬ k = k' := fun h => hk h.symm
          simp [this]
        · simp [hq, ih]

theorem alKeys_alInsert {α : Type} :
    ∀ (m : List (String × α)) (k : String) (v : α),
      alKeys (alInsert m k v) =
        if k ∈ alKeys m then alKeys m else alKeys m ++ [k] := by
  intro m
  induction m with
  | nil => intro k v; simp [alInsert, alKeys]
  | cons kv rest ih =>
      intro k v
      obtain ⟨k', v'⟩ := kv
      by_cases hk : k' = k
      · subst hk; simp [alInsert, alKeys]
      · have hk' : ¬ k = k' := fun h => hk h.symm
        simp only [alInsert, if_neg hk, alKeys, List.map_cons, List.mem_cons]
        have ih' := ih k v
        simp only [alKeys] at ih'
        rw [ih']
        by_cases hmem : k ∈ List.map Prod.fst rest
        · simp [hmem, hk']
        · simp [hmem, hk']

theorem keysNodup_alInsert {α : Type} (m : List (String × α)) (k : String)
    (v : α) (h : keysNodup m) : keysNodup (alInsert m k v) := by
  unfold keysNodup at *
  rw [alKeys_alInsert]
  by_cases hmem : k ∈ alKeys m
  · simpa [hmem] using h
  · simp only [hmem, if_false]
    simpa [List.nodup_append] using ⟨h, hmem⟩

theorem alRemove_sublist {α : Type} :
    ∀ (m : List (String × α)) (k : String), (alRemove m k).Sublist m := by
  intro m
  induction m with
  | nil => intro k; simp [alRemove]
  | cons kv rest ih =>
      intro k
      obtain ⟨k', v'⟩ := kv
      by_cases hk : k' = k
      · simp [alRemove, hk]
      · simpa [alRemove, hk] using (ih k).cons₂ (k', v')

theorem keysNodup_alRemove {α : Type} (m : List (String × α)) (k : String)
    (h : keysNodup m) : keysNodup (alRemove m k) :=
  ((alRemove_sublist m k).map Prod.fst).nodup h

theorem alMerge_nil {α : Type} (a : List (String × α)) : alMerge a [] = a := rfl

theorem alMerge_cons {α : Type} (a : List (String × α)) (kv : String × α)
    (b : List (String × α)) :
    alMerge a (kv :: b) = alMerge (alInsert a kv.1 kv.2) b := rfl

theorem alGet_alMerge {α : Type} :
    ∀ (b a : List (String × α)) (k : String), keysNodup b →
      alGet (alMerge a b) k = (alGet b k).or (alGet a k) := by
  intro b
  induction b with
  | nil => intro a k _; rfl
  | cons kv rest ih =>
      intro a k hnd
      obtain ⟨k0, v0⟩ := kv
      have hnd' : keysNodup rest := by
        simpa [keysNodup, alKeys] using (List.nodup_cons.mp hnd).2
      have hk0 : k0 ∉ alKeys rest := by
        simpa [keysNodup, alKeys] using (List.nodup_cons.mp hnd).1
      rw [alMerge_cons, ih (alInsert a k0 v0) k hnd']
      by_cases hk : k0 = k
      · subst hk
        have : alGet rest k0 = none := alGet_eq_none rest k0 hk0
        simp [alGet, this, alGet_alInsert, Option.or]
      · have hk' : ¬ k0 = k := hk
        simp only [alGet, if_neg hk']
        cases hrest : alGet rest k with
        | some v => simp [Option.or]
        | none => simp [alGet_alInsert, hk', Option.or]

/-! ### Tracer lemmas -/

theorem emit_buffer (t : Tracer) (e : String) (d : Dict) (s : TracerState) :
    ((t.emit e d s).2).buffer = s.buffer ++ [(t.emit e d s).1] := rfl

theorem span_fst {ε α : Type} (t : Tracer) (name : String) (ctx : Dict)
    (body : Tracer → TracerState → Except ε α × TracerState)
    (s : TracerState) :
    (t.span name ctx body s).1 =
      (body (t.child (("span", Val.vstr name) :: ctx))
        ((t.child (("span", Val.vstr name) :: ctx)).emit "span.start" [] s).2).1 := by
  simp only [Tracer.span]

theorem runEmits_clock (ops : List (Tracer × String × Dict)) :
    ∀ s : TracerState, (runEmits ops s).clock = s.clock ∧
      (runEmits ops s).ticks = s.ticks + ops.length := by
  induction ops with
  | nil => intro s; simp [runEmits]
  | cons op rest ih =>
      intro s
      obtain ⟨t, e, d⟩ := op
      have h := ih ((t.emit e d s).2)
      simp only [runEmits]
      refine ⟨h.1, ?_⟩
      rw [h.2]
      simp [Tracer.emit]
      omega

theorem range_map_shift (f : Nat → Nat) (t n : Nat) :
    (List.range (n + 1)).map (fun i => f (t + i)) =
      f t :: (List.range n).map (fun i => f (t + 1 + i)) := by
  rw [List.range_succ_eq_map]
  simp only [List.map_cons, Nat.add_zero, List.map_map, List.cons.injEq, true_and]
  simp only [Function.comp, List.map_inj_left, List.mem_range]
  intro a _
  congr 1
  omega

theorem runEmits_timestamps (ops : List (Tracer × String × Dict)) :
    ∀ s : TracerState,
      (runEmits ops s).buffer.map TraceEvent.timestamp =
        s.buffer.map TraceEvent.timestamp ++
          (List.range ops.length).map (fun i => s.clock (s.ticks + i)) := by
  induction ops with
  | nil => intro s; simp [runEmits]
  | cons op rest ih =>
      intro s
      obtain ⟨t, e, d⟩ := op
      simp only [runEmits, List.length_cons]
      rw [ih ((t.emit e d s).2)]
      rw [range_map_shift s.clock s.ticks rest.length]
      simp only [Tracer.emit, List.map_append, List.map_cons, List.map_nil]
      simp [List.append_assoc]

/-! ### Registry ordering lemmas -/

theorem available_perm (r : DetectorRegistry) : r.available.Perm r := by
  unfold DetectorRegistry.available
  exact List.perm_insertionSort (fun a b => a.1 ≤ b.1) r

theorem available_sorted_le (r : DetectorRegistry) :
    r.available.Pairwise (fun a b => a.1 ≤ b.1) := by
  unfold DetectorRegistry.available
  exact List.sorted_insertionSort (fun a b => a.1 ≤ b.1) r

theorem pairwise_ne_of_keysNodup {α : Type} {m : List (String × α)}
    (h : keysNodup m) : m.Pairwise (fun a b => a.1 ≠ b.1) := by
  unfold keysNodup alKeys at h
  rw [List.Nodup, List.pairwise_map] at h
  exact h

theorem pairwise_lt_of_le_ne {l : List (String × Detector)}
    (hle : l.Pairwise (fun a b => a.1 ≤ b.1))
    (hne : l.Pairwise (fun a b => a.1 ≠ b.1)) :
    l.Pairwise (fun a b => a.1 < b.1) := by
  induction l with
  | nil => exact List.Pairwise.nil
  | cons a t ih =>
      rcases hle with _ | ⟨h1, h2⟩
      rcases hne with _ | ⟨h3, h4⟩
      exact List.Pairwise.cons
        (fun b hb => lt_of_le_of_ne (h1 b hb) (h3 b hb)) (ih h2 h4)

/-- `available()` of a registry with distinct keys is strictly sorted. -/
theorem available_strictSorted {r : DetectorRegistry} (h : keysNodup r) :
    r.available.Pairwise (fun a b => a.1 < b.1) := by
  have hsym : ∀ {x y : String × Detector}, x.1 ≠ y.1 → y.1 ≠ x.1 :=
    fun h' => Ne.symm h'
  have hne : r.available.Pairwise (fun a b => a.1 ≠ b.1) :=
    ((available_perm r).pairwise_iff fun h' => Ne.symm h').mpr
      (pairwise_ne_of_keysNodup h)
  exact pairwise_lt_of_le_ne (available_sorted_le r) hne

/-- `available()` is determined by the table's contents alone: two
registries holding the same entries in any order enumerate identically. -/
theorem available_perm_invariant {r1 r2 : DetectorRegistry}
    (h1 : keysNodup r1) (hp : r1.Perm r2) :
    r1.available = r2.available := by
  have h2 : keysNodup r2 := by
    unfold keysNodup
    exact (hp.map Prod.fst).nodup_iff.mp h1
  exact List.eq_of_perm_of_sorted
    (((available_perm r1).trans hp).trans (available_perm r2).symm)
    (available_strictSorted h1) (available_strictSorted h2)

theorem register_ok {r : DetectorRegistry} {cls : Detector}
    {name : Option String} {ow : Bool} {r' : DetectorRegistry}
    (h : DetectorRegistry.register r cls name ow = Except.ok r') :
    r' = alInsert r (resolveName cls name) cls := by
  unfold DetectorRegistry.register at h
  split at h
  · exact absurd h (by simp)
  · split at h
    · exact absurd h (by simp)
    · exact (Except.ok.injEq _ _ ▸ h).symm

theorem unregister_ok {r : DetectorRegistry} {n : String}
    {r' : DetectorRegistry}
    (h : DetectorRegistry.unregister r n = Except.ok r') :
    r' = alRemove r n := by
  unfold DetectorRegistry.unregister at h
  split at h
  · exact (Except.ok.injEq _ _ ▸ h).symm
  · exact absurd h (by simp)

theorem keysNodup_applyOp {r : DetectorRegistry} (op : RegOp)
    (h : keysNodup r) : keysNodup (applyOp r op) := by
  cases op with
  | reg cls name ow =>
      cases hreg : DetectorRegistry.register r cls name ow with
      | ok r' =>
          simp only [applyOp, hreg]
          exact register_ok hreg ▸ keysNodup_alInsert r _ cls h
      | error e => simp only [applyOp, hreg]; exact h
  | unreg n =>
      cases hun : DetectorRegistry.unregister r n with
      | ok r' =>
          simp only [applyOp, hun]
          exact unregister_ok hun ▸ keysNodup_alRemove r n h
      | error e => simp only [applyOp, hun]; exact h

theorem keysNodup_applyOps (ops : List RegOp) :
    ∀ r : DetectorRegistry, keysNodup r → keysNodup (applyOps r ops) := by
  induction ops with
  | nil => intro r h; exact h
  | cons op rest ih =>
      intro r h
      exact ih (applyOp r op) (keysNodup_applyOp op h)

/-! ### Pipeline lemmas -/

theorem detectorIssues_eq (d : Detector) (root : String) :
    detectorIssues d root = (d.detect root).filterMap (extractIssue d) := rfl

theorem processItems_ok (d : Detector) (tr : Tracer) :
    ∀ (items : List DetectOut) (acc : List Issue) (s : TracerState),
      (∀ o ∈ items, ∃ i, o = DetectOut.issue i) →
      (processItems d tr items acc s).1 =
        Except.ok (acc ++ items.filterMap (extractIssue d)) := by
  intro items
  induction items with
  | nil => intro acc s _; simp [processItems]
  | cons o rest ih =>
      intro acc s h
      obtain ⟨i, hi⟩ := h o (List.mem_cons_self o rest)
      subst hi
      have hrest : ∀ o ∈ rest, ∃ i, o = DetectOut.issue i :=
        fun o ho => h o (List.mem_cons_of_mem _ ho)
      simp only [processItems, ih _ _ hrest, extractIssue, List.filterMap_cons]
      simp

theorem processItems_typeMismatch (d : Detector) (tr : Tracer) (v : String) :
    ∀ (pre rest : List DetectOut) (acc : List Issue) (s : TracerState),
      (∀ o ∈ pre, ∃ i, o = DetectOut.issue i) →
      (processItems d tr (pre ++ DetectOut.other v :: rest) acc s).1 =
        Except.error (PipelineError.typeMismatch d.name v) := by
  intro pre
  induction pre with
  | nil => intro rest acc s _; simp [processItems]
  | cons o t ih =>
      intro rest acc s h
      obtain ⟨i, hi⟩ := h o (List.mem_cons_self o t)
      subst hi
      simp only [List.cons_append, processItems]
      exact ih rest _ _ fun o ho => h o (List.mem_cons_of_mem _ ho)

theorem detectorRun_notFound (d : Detector) (fs : String → Bool)
    (root : String) (tr : Tracer) (s : TracerState) (h : fs root = false) :
    d.run fs root tr s = (Except.error (PipelineError.notFound root), s) := by
  simp [Detector.run, h]

theorem detectorRun_ok (d : Detector) (fs : String → Bool) (root : String)
    (tr : Tracer) (s : TracerState) (hr : fs root = true)
    (h : ∀ o ∈ d.detect root, ∃ i, o = DetectOut.issue i) :
    (d.run fs root tr s).1 = Except.ok (detectorIssues d root) := by
  simp only [Detector.run, hr, if_true]
  rw [span_fst]
  rw [processItems_ok d _ _ [] _ h]
  rfl

theorem detectorRun_typeMismatch (d : Detector) (fs : String → Bool)
    (root : String) (tr : Tracer) (s : TracerState) (hr : fs root = true)
    (pre rest : List DetectOut) (v : String)
    (hsplit : d.detect root = pre ++ DetectOut.other v :: rest)
    (hpre : ∀ o ∈ pre, ∃ i, o = DetectOut.issue i) :
    (d.run fs root tr s).1 =
      Except.error (PipelineError.typeMismatch d.name v) := by
  simp only [Detector.run, hr, if_true]
  rw [span_fst, hsplit]
  exact processItems_typeMismatch d _ v pre rest [] _ hpre

theorem drainAll_ok (fs : String → Bool) (root : String) :
    ∀ (dets : List (Detector × Tracer)) (acc : List Issue) (s : TracerState),
      fs root = true →
      (∀ p ∈ dets, ∀ o ∈ p.1.detect root, ∃ i, o = DetectOut.issue i) →
      (drainAll fs root dets acc s).1 =
        Except.ok (acc ++ (dets.map fun p => detectorIssues p.1 root).flatten) := by
  intro dets
  induction dets with
  | nil => intro acc s _ _; simp [drainAll]
  | cons p rest ih =>
      intro acc s hr h
      obtain ⟨d, tr⟩ := p
      have hd : (d.run fs root tr s).1 = Except.ok (detectorIssues d root) :=
        detectorRun_ok d fs root tr s hr
          (h (d, tr) (List.mem_cons_self _ _))
      rcases hrun : d.run fs root tr s with ⟨x, s'⟩
      rw [hrun] at hd
      simp only at hd
      subst hd
      simp only [drainAll, hrun]
      rw [ih _ _ hr fun p hp => h p (List.mem_cons_of_mem _ hp)]
      simp

/-- `RepoSurgeon.run` on the success path returns the per-detector issue
lists of the instantiated detectors, concatenated in their order. -/
theorem repoSurgeonRun_ok (reg : DetectorRegistry) (fs : String → Bool)
    (root : String) (includeNames excludeNames : List String) (t : Tracer)
    (s : TracerState) (hr : fs root = true)
    (h : ∀ p ∈ reg.instantiate_all includeNames excludeNames
          (some fun name => t.child [("detector", Val.vstr name)]),
          ∀ o ∈ p.1.detect root, ∃ i, o = DetectOut.issue i) :
    (RepoSurgeon.run reg fs root includeNames excludeNames t s).1 =
      Except.ok
        ((reg.instantiate_all includeNames excludeNames
            (some fun name => t.child [("detector", Val.vstr name)])).map
          (fun p => detectorIssues p.1 root)).flatten := by
  unfold RepoSurgeon.run
  rw [span_fst]
  have hdrain := drainAll_ok fs root
    (reg.instantiate_all includeNames excludeNames
      (some fun name => t.child [("detector", Val.vstr name)])) []
    ((t.child (("span", Val.vstr "scan") :: [("root", Val.vstr root)])).emit
      "span.start" [] s).2 hr h
  rcases hd : drainAll fs root
      (reg.instantiate_all includeNames excludeNames
        (some fun name => t.child [("detector", Val.vstr name)])) []
      ((t.child (("span", Val.vstr "scan") :: [("root", Val.vstr root)])).emit
        "span.start" [] s).2 with ⟨x, s2⟩
  rw [hd] at hdrain
  simp only at hdrain
  subst hdrain
  simp [hd]

/-! ### Instantiation filter lemmas -/

theorem instantiateLoop_eq_filter (includeNames excludeNames : List String)
    (tf : Option (String → Tracer)) :
    ∀ l : List (String × Detector),
      instantiateLoop includeNames excludeNames tf l =
        (l.filter fun nc => decide (selectedName includeNames excludeNames nc.1)).map
          (fun nc => (nc.2, tracerFor tf nc.1)) := by
  intro l
  induction l with
  | nil => rfl
  | cons nc rest ih =>
      obtain ⟨name, cls⟩ := nc
      by_cases h1 : includeNames ≠ [] ∧ name ∉ includeNames
      · have hsel : ¬ selectedName includeNames excludeNames name := by
          unfold selectedName
          push_neg
          intro hx
          rcases hx with hx | hx
          · exact absurd hx h1.1
          · exact absurd hx h1.2
        simp [instantiateLoop, h1, ih, List.filter_cons, hsel]
      · by_cases h2 : name ∈ excludeNames
        · have hsel : ¬ selectedName includeNames excludeNames name := by
            unfold selectedName
            push_neg
            intro _
            exact h2
          simp [instantiateLoop, h1, h2, ih, List.filter_cons, hsel]
        · have hsel : selectedName includeNames excludeNames name := by
            constructor
            · by_cases hinc : includeNames = []
              · exact Or.inl hinc
              · push_neg at h1
                exact Or.inr (h1 hinc)
            · exact h2
          simp [instantiateLoop, h1, h2, List.filter_cons, hsel, ih]

/-! ### Claim theorems -/

/-- C1: for every tracer, span name and caller body, `Tracer.span` emits
exactly one `span.start` event before the body runs and exactly one
`span.end` event on every exit path (the body's result, ok or error, is
returned unchanged), the end event appended to the shared buffer strictly
after the start event: the final buffer is the initial buffer, then the
start event, then exactly what the body appended, then the end event. -/
theorem span_scoped_closure {ε α : Type} (t : Tracer) (name : String)
    (ctx : Dict) (body : Tracer → TracerState → Except ε α × TracerState)
    (s : TracerState) (l : List TraceEvent)
    (hb : (body (t.child (("span", Val.vstr name) :: ctx))
        ((t.child (("span", Val.vstr name) :: ctx)).emit "span.start" [] s).2).2.buffer
      = ((t.child (("span", Val.vstr name) :: ctx)).emit "span.start" [] s).2.buffer ++ l) :
    ∃ es ee : TraceEvent,
      es.event = "span.start" ∧ ee.event = "span.end" ∧
      (t.span name ctx body s).2.buffer = s.buffer ++ es :: (l ++ [ee]) ∧
      (t.span name ctx body s).1 =
        (body (t.child (("span", Val.vstr name) :: ctx))
          ((t.child (("span", Val.vstr name) :: ctx)).emit "span.start" [] s).2).1 := by
  unfold Tracer.span
  rcases hbody : body (t.child (("span", Val.vstr name) :: ctx))
      ((t.child (("span", Val.vstr name) :: ctx)).emit "span.start" [] s).2
    with ⟨r, s2⟩
  rw [hbody] at hb
  simp only at hb
  refine ⟨((t.child (("span", Val.vstr name) :: ctx)).emit "span.start" [] s).1,
          ((t.child (("span", Val.vstr name) :: ctx)).emit "span.end" [] s2).1,
          rfl, rfl, ?_, ?_⟩
  · simp only [hbody, emit_buffer, hb]
    simp [Tracer.emit]
  · simp [hbody]

/-- C1 witness: a span whose body raises still yields start, the body's
event, then end. -/
theorem span_scoped_closure_witness :
    ∃ es ee : TraceEvent,
      es.event = "span.start" ∧ ee.event = "span.end" ∧
      (Tracer.span {} "op" [] bodyFail st0).2.buffer =
        st0.buffer ++ es :: ([⟨1, "boom", [("span", Val.vstr "op")]⟩] ++ [ee]) ∧
      (Tracer.span {} "op" [] bodyFail st0).1 =
        (bodyFail (Tracer.child {} (("span", Val.vstr "op") :: []))
          ((Tracer.child {} (("span", Val.vstr "op") :: [])).emit "span.start" [] st0).2).1 :=
  span_scoped_closure {} "op" [] bodyFail st0
    [⟨1, "boom", [("span", Val.vstr "op")]⟩] rfl

/-- C9 counterexample: with a clock whose second reading is smaller than
its first, two emissions leave the buffer's timestamps decreasing, so the
claim quantified over every clock fails. -/
theorem timestamps_nonmonotone_counterexample :
    ¬ List.Chain' (· ≤ ·)
      ((runEmits [({}, "a", []), ({}, "b", [])]
          { clock := fun i => if i = 0 then 1 else 0 }).buffer.map
        TraceEvent.timestamp) := by
  intro h
  have hts : (runEmits [({}, "a", []), ({}, "b", [])]
      { clock := fun i => if i = 0 then 1 else 0 }).buffer.map
        TraceEvent.timestamp = [1, 0] := rfl
  rw [hts] at h
  exact absurd (List.chain'_cons.mp h).1 (by decide)

/-- C9 amended: when the injected clock is monotone, the timestamps in the
shared buffer are non-decreasing in emission order, for every sequence of
emissions from any handles of the tracer family. -/
theorem timestamps_monotone_of_monotone_clock (clock : Nat → Nat)
    (ops : List (Tracer × String × Dict)) (hm : Monotone clock) :
    List.Chain' (· ≤ ·)
      ((runEmits ops { clock := clock }).buffer.map TraceEvent.timestamp) := by
  rw [runEmits_timestamps]
  simp only [List.map_nil, List.nil_append, Nat.zero_add]
  exact List.Pairwise.chain'
    ((List.pairwise_map).mpr ((List.pairwise_lt_range _).imp
      fun h => hm (Nat.le_of_lt h)))

/-- C9 witness: the identity clock is monotone and two emissions give
non-decreasing timestamps. -/
theorem timestamps_monotone_witness :
    List.Chain' (· ≤ ·)
      ((runEmits [({}, "a", []), ({}, "b", [])]
          { clock := fun i => i }).buffer.map TraceEvent.timestamp) :=
  timestamps_monotone_of_monotone_clock (fun i => i)
    [({}, "a", []), ({}, "b", [])] (fun _ _ h => h)

/-- C10: in `TraceEvent.to_dict` the data keys are merged over the base
fields, so a data key named `event` or `timestamp` overrides the event's
own name or formatted timestamp; concretely, emitting `"x"` with data
`event="y"` serializes with event `"y"`, not `"x"`. -/
theorem to_dict_collision_override :
    (∀ e : TraceEvent, keysNodup e.data →
      (alGet e.to_dict "event" =
        (alGet e.data "event").or (some (Val.vstr e.event))) ∧
      (alGet e.to_dict "timestamp" =
        (alGet e.data "timestamp").or (some (Val.vstr (toString e.timestamp))))) ∧
    (alGet ((Tracer.emit {} "x" [("event", Val.vstr "y")] st0).1).to_dict
        "event" = some (Val.vstr "y") ∧
      ((Tracer.emit {} "x" [("event", Val.vstr "y")] st0).1).event = "x" ∧
      Val.vstr "y" ≠ Val.vstr "x") := by
  constructor
  · intro e h
    constructor
    · rw [TraceEvent.to_dict, alGet_alMerge e.data _ "event" h]
      cases h' : alGet e.data "event" with
      | some v => simp [Option.or]
      | none => simp [Option.or, alGet]
    · rw [TraceEvent.to_dict, alGet_alMerge e.data _ "timestamp" h]
      cases h' : alGet e.data "timestamp" with
      | some v => simp [Option.or]
      | none => simp [Option.or, alGet]
  · refine ⟨by decide, by decide, by decide⟩

/-- C10 witness: the override characterization applied to the concrete
event produced by `emit "x"` with data `event="y"`. -/
theorem to_dict_collision_override_witness :
    (alGet ((Tracer.emit {} "x" [("event", Val.vstr "y")] st0).1).to_dict
        "event" =
      (alGet ((Tracer.emit {} "x" [("event", Val.vstr "y")] st0).1).data
          "event").or
        (some (Val.vstr ((Tracer.emit {} "x" [("event", Val.vstr "y")] st0).1).event))) ∧
    (alGet ((Tracer.emit {} "x" [("event", Val.vstr "y")] st0).1).to_dict
        "timestamp" =
      (alGet ((Tracer.emit {} "x" [("event", Val.vstr "y")] st0).1).data
          "timestamp").or
        (some (Val.vstr (toString ((Tracer.emit {} "x" [("event", Val.vstr "y")] st0).1).timestamp)))) :=
  to_dict_collision_override.1
    (Tracer.emit {} "x" [("event", Val.vstr "y")] st0).1 (by decide)

/-- C3: `child` returns a tracer whose context is the parent context merged
with the given keys (given keys win at lookup), `emit` builds event data as
the tracer's context merged with call-site data (call-site wins at lookup),
the parent handle's context value is untouched, and concretely
`child(x=1)` on context `{a:1}` has context `{a:1, x:1}` while
`emit("e", x=2)` on that child produces data `{a:1, x:2}`. -/
theorem tracer_context_merge :
    (∀ (t : Tracer) (ctx : Dict) (k : String), keysNodup ctx →
      alGet (t.child ctx).context k =
        (alGet ctx k).or (alGet t.context k)) ∧
    (∀ (t : Tracer) (e : String) (data : Dict) (s : TracerState) (k : String),
      keysNodup data →
      alGet ((t.emit e data s).1).data k =
        (alGet data k).or (alGet t.context k)) ∧
    ((Tracer.child ⟨[("a", Val.vnat 1)]⟩ [("x", Val.vnat 1)]).context =
        [("a", Val.vnat 1), ("x", Val.vnat 1)] ∧
      ((Tracer.child ⟨[("a", Val.vnat 1)]⟩ [("x", Val.vnat 1)]).emit "e"
          [("x", Val.vnat 2)] st0).1.data =
        [("a", Val.vnat 1), ("x", Val.vnat 2)] ∧
      (⟨[("a", Val.vnat 1)]⟩ : Tracer).context = [("a", Val.vnat 1)]) := by
  refine ⟨?_, ?_, by decide, by decide, by decide⟩
  · intro t ctx k h
    simpa [Tracer.child] using alGet_alMerge ctx t.context k h
  · intro t e data s k h
    simpa [Tracer.emit] using alGet_alMerge data t.context k h

/-- C3 witness: the lookup characterizations applied at the concrete
parent `{a:1}`, child keys `{x:1}` and emission data `{x:2}`. -/
theorem tracer_context_merge_witness :
    (alGet (Tracer.child ⟨[("a", Val.vnat 1)]⟩ [("x", Val.vnat 1)]).context "x" =
      (alGet [("x", Val.vnat 1)] "x").or (alGet [("a", Val.vnat 1)] "x")) ∧
    (alGet ((Tracer.child ⟨[("a", Val.vnat 1)]⟩ [("x", Val.vnat 1)]).emit "e"
        [("x", Val.vnat 2)] st0).1.data "a" =
      (alGet [("x", Val.vnat 2)] "a").or
        (alGet (Tracer.child ⟨[("a", Val.vnat 1)]⟩ [("x", Val.vnat 1)]).context "a")) :=
  ⟨tracer_context_merge.1 ⟨[("a", Val.vnat 1)]⟩ [("x", Val.vnat 1)] "x" (by decide),
   tracer_context_merge.2.1 (Tracer.child ⟨[("a", Val.vnat 1)]⟩ [("x", Val.vnat 1)])
     "e" [("x", Val.vnat 2)] st0 "a" (by decide)⟩

/-- `reg3` is already strictly sorted by name. -/
theorem reg3_sorted : reg3.Pairwise (fun a b => a.1 < b.1) := by
  unfold reg3
  refine List.Pairwise.cons (fun x hx => ?_)
    (List.Pairwise.cons (fun x hx => ?_)
      (List.Pairwise.cons (fun x hx => ?_) List.Pairwise.nil))
  · rcases List.mem_cons.mp hx with rfl | hx
    · rw [String.lt_iff_toList_lt]; decide
    · rcases List.mem_cons.mp hx with rfl | hx
      · rw [String.lt_iff_toList_lt]; decide
      · cases hx
  · rcases List.mem_cons.mp hx with rfl | hx
    · rw [String.lt_iff_toList_lt]; decide
    · cases hx
  · cases hx

/-- Sorting `reg3` is the identity. -/
theorem reg3_available : reg3.available = reg3 :=
  List.eq_of_perm_of_sorted (available_perm reg3)
    (available_strictSorted (by decide)) reg3_sorted

/-- C4: after every sequence of register/unregister operations from the
empty registry, `available()` returns the entries in strict lexicographic
order by name; moreover enumeration depends only on the table's contents,
independent of the order registrations were performed in. -/
theorem available_lexicographic :
    (∀ ops : List RegOp,
      (applyOps [] ops).available.Pairwise (fun a b => a.1 < b.1)) ∧
    ∀ r1 r2 : DetectorRegistry, keysNodup r1 → r1.Perm r2 →
      r1.available = r2.available := by
  constructor
  · intro ops
    exact available_strictSorted (keysNodup_applyOps ops [] (by decide))
  · intro r1 r2 h hp
    exact available_perm_invariant h hp

/-- C4 witness: registering `b` then `a` still enumerates strictly sorted,
and the two orders of the same two entries enumerate identically. -/
theorem available_lexicographic_witness :
    ((applyOps [] [RegOp.reg detB none false,
        RegOp.reg detA none false]).available.Pairwise
      (fun a b => a.1 < b.1)) ∧
    DetectorRegistry.available [("a", detA), ("b", detB)] =
      DetectorRegistry.available [("b", detB), ("a", detA)] :=
  ⟨available_lexicographic.1 [RegOp.reg detB none false, RegOp.reg detA none false],
   available_lexicographic.2 [("a", detA), ("b", detB)] [("b", detB), ("a", detA)]
     (by decide) (List.Perm.swap ("b", detB) ("a", detA) [])⟩

/-- C5: `register` resolves the name to the given name or else the
factory's declared name; an empty resolved name gives the Validation-kind
error, a duplicate without overwrite gives the Conflict-kind error, and
otherwise (fresh name, or overwrite on) it succeeds, storing the factory
under the resolved name and leaving every other name untouched. -/
theorem register_semantics (r : DetectorRegistry) (cls : Detector)
    (name : Option String) (ow : Bool) :
    (resolveName cls name = "" →
      r.register cls name ow =
        Except.error (RegError.validation "detector name cannot be empty")) ∧
    (resolveName cls name ≠ "" →
      (alGet r (resolveName cls name)).isSome = true → ow = false →
      r.register cls name ow =
        Except.error (RegError.conflict (resolveName cls name))) ∧
    (resolveName cls name ≠ "" →
      ((alGet r (resolveName cls name)).isSome = false ∨ ow = true) →
      r.register cls name ow =
        Except.ok (alInsert r (resolveName cls name) cls) ∧
      alGet (alInsert r (resolveName cls name) cls) (resolveName cls name) =
        some cls ∧
      ∀ k : String, k ≠ resolveName cls name →
        alGet (alInsert r (resolveName cls name) cls) k = alGet r k) := by
  refine ⟨?_, ?_, ?_⟩
  · intro h
    simp [DetectorRegistry.register, h]
  · intro h1 h2 h3
    simp [DetectorRegistry.register, h1, h2, h3]
  · intro h1 h2
    refine ⟨?_, ?_, ?_⟩
    · rcases h2 with h2 | h2 <;> simp [DetectorRegistry.register, h1, h2]
    · rw [alGet_alInsert]; simp
    · intro k hk
      rw [alGet_alInsert]
      exact if_neg fun h => hk h.symm

/-- C5 witness: the three branches at concrete registries: empty name,
duplicate `a` without overwrite, duplicate `a` with overwrite. -/
theorem register_semantics_witness :
    (DetectorRegistry.register [] detNoName none false =
      Except.error (RegError.validation "detector name cannot be empty")) ∧
    (DetectorRegistry.register [("a", detA)] detA none false =
      Except.error (RegError.conflict (resolveName detA none))) ∧
    (DetectorRegistry.register [("a", detA)] detB (some "a") true =
      Except.ok (alInsert [("a", detA)] (resolveName detB (some "a")) detB)) :=
  ⟨(register_semantics [] detNoName none false).1 rfl,
   (register_semantics [("a", detA)] detA none false).2.1 (by decide) rfl rfl,
   ((register_semantics [("a", detA)] detB (some "a") true).2.2 (by decide)
     (Or.inr rfl)).1⟩

/-- C6: `instantiate_all` returns instances of exactly the registered
names in `include` (when `include` is non-empty) and not in `exclude`, in
lexicographic name order, and over `{a, b, c}` the call with
`include={a,b}`, `exclude={b}` yields exactly `[a]`. -/
theorem instantiate_all_filter :
    ((reg3.instantiate_all ["a", "b"] ["b"] none).map (fun p => p.1.name) =
      ["a"]) ∧
    ∀ (r : DetectorRegistry) (inc exc : List String)
      (tf : Option (String → Tracer)),
      (r.instantiate_all inc exc tf =
        (r.available.filter fun nc =>
            decide (selectedName inc exc nc.1)).map
          (fun nc => (nc.2, tracerFor tf nc.1))) ∧
      (∀ n : String,
        n ∈ ((r.available.filter fun nc =>
            decide (selectedName inc exc nc.1)).map Prod.fst) ↔
          n ∈ alKeys r ∧ selectedName inc exc n) ∧
      (keysNodup r →
        (r.available.filter fun nc =>
            decide (selectedName inc exc nc.1)).Pairwise
          (fun a b => a.1 < b.1)) := by
  constructor
  · show (instantiateLoop ["a", "b"] ["b"] none reg3.available).map
      (fun p => p.1.name) = ["a"]
    rw [reg3_available]
    rfl
  intro r inc exc tf
  refine ⟨instantiateLoop_eq_filter inc exc tf r.available, ?_, ?_⟩
  · intro n
    constructor
    · intro hn
      rcases List.mem_map.mp hn with ⟨nc, hmem, rfl⟩
      rcases List.mem_filter.mp hmem with ⟨hav, hsel⟩
      refine ⟨?_, of_decide_eq_true hsel⟩
      exact List.mem_map.mpr ⟨nc, (available_perm r).mem_iff.mp hav, rfl⟩
    · rintro ⟨hn, hsel⟩
      rcases List.mem_map.mp hn with ⟨nc, hmem, rfl⟩
      exact List.mem_map.mpr
        ⟨nc, List.mem_filter.mpr
          ⟨(available_perm r).mem_iff.mpr hmem, decide_eq_true hsel⟩, rfl⟩
  · intro h
    exact List.Pairwise.sublist (List.filter_sublist _) (available_strictSorted h)

/-- C6 witness: over `{a, b, c}` with `include={a,b}`, `exclude={b}`, the
kept entries are strictly sorted by name. -/
theorem instantiate_all_filter_witness :
    (reg3.available.filter fun nc =>
        decide (selectedName ["a", "b"] ["b"] nc.1)).Pairwise
      (fun a b => a.1 < b.1) :=
  (instantiate_all_filter.2 reg3 ["a", "b"] ["b"] none).2.2 (by decide)

/-- C7 counterexample: a detector with `default_severity = "error"` whose
`detect` constructs its issue without an explicit severity (so the issue
carries the `Issue` dataclass default `"warning"`): `run` yields severity
`"warning"`, not the detector's configured defaultSeverity, refuting the
claim as stated. -/
theorem severity_default_counterexample :
    (sevDet.run (fun _ => true) "r" {} st0).1 =
      Except.ok [{ message := "m", path := "p", detector := "sevdet",
                   severity := "warning" }] ∧
    sevDet.default_severity = "error" ∧
    ({ message := "m", path := "p" } : Issue).severity = "warning" ∧
    ("warning" : String) ≠ "error" :=
  ⟨rfl, rfl, rfl, by decide⟩

/-- C7 amended: `run` yields each produced issue with `detector` set to
the detector's name exactly when it was blank and `severity` set to
`default_severity` exactly when it was the empty string (an issue
constructed without an explicit severity carries the dataclass default
`"warning"` and keeps it); all other fields pass through unchanged. -/
theorem run_normalizes_blank_fields (d : Detector) (fs : String → Bool)
    (root : String) (tr : Tracer) (s : TracerState) (hr : fs root = true)
    (h : ∀ o ∈ d.detect root, ∃ i, o = DetectOut.issue i) :
    (d.run fs root tr s).1 = Except.ok (detectorIssues d root) ∧
    ∀ i : Issue,
      (normalizeIssue d i).detector =
        (if i.detector = "" then d.name else i.detector) ∧
      (normalizeIssue d i).severity =
        (if i.severity = "" then d.default_severity else i.severity) ∧
      (normalizeIssue d i).message = i.message ∧
      (normalizeIssue d i).path = i.path ∧
      (normalizeIssue d i).line = i.line ∧
      (normalizeIssue d i).column = i.column ∧
      (normalizeIssue d i).details = i.details := by
  refine ⟨detectorRun_ok d fs root tr s hr h, ?_⟩
  intro i
  simp [normalizeIssue]

/-- C7 witness: the amended normalisation applied to `demoDetector`. -/
theorem run_normalizes_blank_fields_witness :
    (demoDetector.run (fun _ => true) "r" {} st0).1 =
      Except.ok (detectorIssues demoDetector "r") :=
  (run_normalizes_blank_fields demoDetector (fun _ => true) "r" {} st0 rfl
    (fun o ho => ⟨demoIssue, by simpa [demoDetector] using ho⟩)).1

/-- C8: `Detector.run` fails with the NotFound-kind error when the root
does not exist, checked up front before any event is emitted or span
opened (the state comes back untouched); it fails with the
TypeMismatch-kind error as soon as `detect` produces a non-`Issue` value,
regardless of what follows; and when the root exists and every produced
value is an `Issue`, it returns them all with neither error. -/
theorem run_validation_errors (d : Detector) (fs : String → Bool)
    (root : String) (tr : Tracer) (s : TracerState) :
    (fs root = false →
      d.run fs root tr s = (Except.error (PipelineError.notFound root), s)) ∧
    (∀ (pre rest : List DetectOut) (v : String), fs root = true →
      d.detect root = pre ++ DetectOut.other v :: rest →
      (∀ o ∈ pre, ∃ i, o = DetectOut.issue i) →
      (d.run fs root tr s).1 =
        Except.error (PipelineError.typeMismatch d.name v)) ∧
    (fs root = true → (∀ o ∈ d.detect root, ∃ i, o = DetectOut.issue i) →
      (d.run fs root tr s).1 = Except.ok (detectorIssues d root)) := by
  refine ⟨?_, ?_, ?_⟩
  · intro h
    exact detectorRun_notFound d fs root tr s h
  · intro pre rest v hr hsplit hpre
    exact detectorRun_typeMismatch d fs root tr s hr pre rest v hsplit hpre
  · intro hr h
    exact detectorRun_ok d fs root tr s hr h

/-- C8 witness: the missing-root error with untouched state, the fatal
non-`Issue` error of `badDet`, and the error-free run of `demoDetector`. -/
theorem run_validation_errors_witness :
    (badDet.run (fun r => r == "ok") "missing" {} st0 =
      (Except.error (PipelineError.notFound "missing"), st0)) ∧
    ((badDet.run (fun _ => true) "r" {} st0).1 =
      Except.error (PipelineError.typeMismatch badDet.name "42")) ∧
    ((demoDetector.run (fun _ => true) "r" {} st0).1 =
      Except.ok (detectorIssues demoDetector "r")) :=
  ⟨(run_validation_errors badDet (fun r => r == "ok") "missing" {} st0).1 rfl,
   (run_validation_errors badDet (fun _ => true) "r" {} st0).2.1
     [DetectOut.issue { message := "m", path := "p" }] [] "42" rfl rfl
     (fun o ho => ⟨{ message := "m", path := "p" }, by simpa using ho⟩),
   (run_validation_errors demoDetector (fun _ => true) "r" {} st0).2.2 rfl
     (fun o ho => ⟨demoIssue, by simpa [demoDetector] using ho⟩)⟩

/-- C2: the end-to-end scan over the one-detector registry returns exactly
the one issue with its `detector` field auto-filled, and the buffer holds,
in order: scan `span.start`, detector `span.start`, the `issue` event, the
detector `span.end`, `scan.complete` carrying the total issue count, and
the scan `span.end`; in general, on the success path the returned sequence
is the per-detector issue lists concatenated in the instantiated
(lexicographic) detector order. -/
theorem orchestrator_end_to_end :
    ((RepoSurgeon.run demoRegistry (fun _ => true) "root" [] [] {} st0).1 =
        Except.ok [{ message := "problem", path := "file.py",
                     detector := "demo", severity := "info" }] ∧
      ((RepoSurgeon.run demoRegistry (fun _ => true) "root" [] [] {} st0).2.buffer.map
          (fun e => (e.event, alGet e.data "span"))) =
        [("span.start", some (Val.vstr "scan")),
         ("span.start", some (Val.vstr "detector")),
         ("issue", some (Val.vstr "detector")),
         ("span.end", some (Val.vstr "detector")),
         ("scan.complete", some (Val.vstr "scan")),
         ("span.end", some (Val.vstr "scan"))] ∧
      ((RepoSurgeon.run demoRegistry (fun _ => true) "root" [] [] {} st0).2.buffer.map
          (fun e => alGet e.data "issues")) =
        [none, none, none, none, some (Val.vnat 1), none]) ∧
    ∀ (reg : DetectorRegistry) (fs : String → Bool) (root : String)
      (inc exc : List String) (t : Tracer) (s : TracerState),
      fs root = true →
      (∀ p ∈ reg.instantiate_all inc exc
          (some fun name => t.child [("detector", Val.vstr name)]),
        ∀ o ∈ p.1.detect root, ∃ i, o = DetectOut.issue i) →
      (RepoSurgeon.run reg fs root inc exc t s).1 =
        Except.ok
          ((reg.instantiate_all inc exc
              (some fun name => t.child [("detector", Val.vstr name)])).map
            (fun p => detectorIssues p.1 root)).flatten := by
  refine ⟨⟨rfl, rfl, rfl⟩, ?_⟩
  intro reg fs root inc exc t s hr h
  exact repoSurgeonRun_ok reg fs root inc exc t s hr h

/-- C2 witness: the general ordering statement applied to the concrete
one-detector registry. -/
theorem orchestrator_end_to_end_witness :
    (RepoSurgeon.run demoRegistry (fun _ => true) "r2" [] [] {} st0).1 =
      Except.ok
        ((demoRegistry.instantiate_all [] []
            (some fun name => Tracer.child {} [("detector", Val.vstr name)])).map
          (fun p => detectorIssues p.1 "r2")).flatten :=
  orchestrator_end_to_end.2 demoRegistry (fun _ => true) "r2" [] [] {} st0 rfl
    (fun p hp o ho => by
      have hlist : demoRegistry.instantiate_all [] []
          (some fun name => Tracer.child {} [("detector", Val.vstr name)]) =
          [(demoDetector, Tracer.child {} [("detector", Val.vstr "demo")])] := rfl
      rw [hlist] at hp
      rcases List.mem_singleton.mp hp with rfl
      exact ⟨demoIssue, by simpa [demoDetector] using ho⟩)

end RepoSurgeon
